import Mathlib

/-!
Shallow embedding of the transaction_tool payments engine
(`src/types.rs`, `src/processor.rs`).

The engine is a pure fold `process_transaction : State → Transaction → State`
over two association maps: transaction id → stored transaction, and
client id → account. Amounts are Rust `f64`; we model a finite double as the
rational number it denotes and every `+=`/`-=` as rational addition or
subtraction followed by `roundF`, correct rounding to the binary64 grid
(round to nearest, ties to even, gradual underflow below `2^-1022`; the
exponent range is unbounded above, so behaviour at the `f64` overflow
threshold `~1.8e308` is not modelled — no claim here goes near it).
Comparison of finite doubles agrees with the rational order, so `<` needs no
wrapper. To separate what the code computes from what exact arithmetic would
give, the processor is parameterised by the arithmetic (`floatArith` is the
code's `f64` semantics, `exactArith` is exact rational arithmetic).

Rust's `HashMap` is modelled as an association list with unique keys:
`lookupL` is `get`, `insertL k v` is `insert` (replace the binding in place
if the key is present, append otherwise). Client ids (`u16`) and transaction
ids (`u32`) are modelled as `ℕ`; the engine only compares them for equality,
so wraparound is irrelevant.
-/

/-- The five record kinds of `types.rs` (`TransactionType`). -/
inductive TransactionType where
  | deposit
  | withdrawal
  | dispute
  | resolve
  | chargeback
deriving DecidableEq, Repr

/-- One parsed input record (`types.rs` `Transaction`); `disputed` is the
engine-maintained flag, `#[serde(default)] false` on every parsed record. -/
structure Transaction where
  transaction_type : TransactionType
  client_id : ℕ
  id : ℕ
  amount : ℚ
  disputed : Bool
deriving DecidableEq, Repr

/-- A client account (`types.rs` `Client`). -/
structure Client where
  id : ℕ
  locked : Bool
  available : ℚ
  held : ℚ
  total : ℚ
deriving DecidableEq, Repr

/-- `Client::new`: zero balances, unlocked. -/
def Client.new (id : ℕ) : Client :=
  { id := id, locked := false, available := 0, held := 0, total := 0 }

/-- Association-list lookup, the model of `HashMap::get`. -/
def lookupL {α : Type} (k : ℕ) : List (ℕ × α) → Option α
  | [] => none
  | (k₁, v) :: rest => if k₁ = k then some v else lookupL k rest

/-- Association-list insert-or-replace, the model of `HashMap::insert` and of
in-place mutation through `get_mut`. -/
def insertL {α : Type} (k : ℕ) (v : α) : List (ℕ × α) → List (ℕ × α)
  | [] => [(k, v)]
  | (k₁, v₁) :: rest => if k₁ = k then (k, v) :: rest else (k₁, v₁) :: insertL k v rest

/-- Engine state (`types.rs` `State`): stored transactions and accounts. -/
structure State where
  transfers : List (ℕ × Transaction)
  clients : List (ℕ × Client)
deriving DecidableEq, Repr

/-- `State::new()`: both maps empty. -/
def State.new : State := { transfers := [], clients := [] }

/-! ### The binary64 arithmetic model -/

/-- `2 ^ e` as a rational, for an integer exponent. -/
def pow2 (e : ℤ) : ℚ :=
  if 0 ≤ e then ((2 ^ e.toNat : ℕ) : ℚ) else ((2 ^ (-e).toNat : ℕ) : ℚ)⁻¹

/-- Number of binary digits of `n` (`0` for `0`), by fuel recursion so that
the kernel can evaluate it. The fuel `n` is always sufficient since the
argument at least halves each step. -/
def bitsF : ℕ → ℕ → ℕ
  | 0, _ => 0
  | _ + 1, 0 => 0
  | fuel + 1, n + 1 => bitsF fuel ((n + 1) / 2) + 1

/-- Number of binary digits of `n`. -/
def bits (n : ℕ) : ℕ := bitsF n n

/-- Floor of the base-2 logarithm of a positive rational. With
`e₀ = bits num - bits den` we have `2 ^ (e₀ - 1) < a < 2 ^ (e₀ + 1)`, so a
single comparison finishes the job. -/
def floorLog2 (a : ℚ) : ℤ :=
  let e₀ : ℤ := (bits a.num.natAbs : ℤ) - (bits a.den : ℤ)
  if pow2 e₀ ≤ a then e₀ else e₀ - 1

/-- Correct rounding of a rational to the binary64 grid: round to nearest,
ties to even, unit in the last place `2 ^ (e - 52)` clamped below at the
subnormal ulp `2 ^ (-1074)`. The exponent range is unbounded above (see the
module comment). -/
def roundF (q : ℚ) : ℚ :=
  if q = 0 then 0
  else
    let s : ℚ := if q < 0 then -1 else 1
    let a : ℚ := |q|
    let u : ℚ := pow2 (max (floorLog2 a - 52) (-1074))
    let n : ℤ := ⌊a / u⌋
    let r : ℚ := a / u - (n : ℚ)
    let m : ℤ :=
      if r < 1 / 2 then n
      else if 1 / 2 < r then n + 1
      else if n % 2 = 0 then n else n + 1
    s * ((m : ℚ) * u)

/-- `f64` addition on finite doubles: round the exact sum. -/
def fadd (x y : ℚ) : ℚ := roundF (x + y)

/-- `f64` subtraction on finite doubles: round the exact difference. -/
def fsub (x y : ℚ) : ℚ := roundF (x - y)

/-- The two balance operations the engine uses, abstracted so the same
transition function can be read under `f64` semantics or exact semantics. -/
structure Arith where
  add : ℚ → ℚ → ℚ
  sub : ℚ → ℚ → ℚ

/-- The code's arithmetic: `f64` with round-to-nearest-even. -/
def floatArith : Arith := { add := fadd, sub := fsub }

/-- Exact rational arithmetic, for comparison. -/
def exactArith : Arith := { add := (· + ·), sub := (· - ·) }

/-! ### The transition function (`processor.rs`) -/

/-- `process_deposit`. Rejects a duplicate transaction id; creates the
account on first sight of the client; rejects if the account is locked; else
adds the amount to `available` and `total` and stores the record. -/
def process_deposit (A : Arith) (state : State) (t : Transaction) : State :=
  if (lookupL t.id state.transfers).isSome then state
  else
    let clients₀ :=
      match lookupL t.client_id state.clients with
      | some _ => state.clients
      | none => insertL t.client_id (Client.new t.client_id) state.clients
    match lookupL t.client_id clients₀ with
    | none => { state with clients := clients₀ }
    | some client =>
      if client.locked then { state with clients := clients₀ }
      else
        let client₁ := { client with
          available := A.add client.available t.amount,
          total := A.add client.total t.amount }
        { transfers := insertL t.id t state.transfers,
          clients := insertL t.client_id client₁ clients₀ }

/-- `process_withdrawal`. Rejects a duplicate transaction id, an unknown
client, a locked account, or `available < amount`; else subtracts the amount
from `available` and `total` and stores the record. -/
def process_withdrawal (A : Arith) (state : State) (t : Transaction) : State :=
  if (lookupL t.id state.transfers).isSome then state
  else
    match lookupL t.client_id state.clients with
    | none => state
    | some client =>
      if client.locked = true ∨ client.available < t.amount then state
      else
        let client₁ := { client with
          available := A.sub client.available t.amount,
          total := A.sub client.total t.amount }
        { transfers := insertL t.id t state.transfers,
          clients := insertL t.client_id client₁ state.clients }

/-- `process_dispute`. Rejects an unknown transaction id, an already disputed
or non-deposit target, a client mismatch, or a locked account; else marks the
target disputed and moves its amount from `available` to `held`. The `none`
branch of the account lookup is the source's `.unwrap()` (see the
unwrap-safety theorem); the model returns the state unchanged there. -/
def process_dispute (A : Arith) (state : State) (t : Transaction) : State :=
  match lookupL t.id state.transfers with
  | none => state
  | some target =>
    if target.disputed = true ∨ target.transaction_type ≠ TransactionType.deposit
        ∨ target.client_id ≠ t.client_id then state
    else
      match lookupL target.client_id state.clients with
      | none => state
      | some client =>
        if client.locked then state
        else
          let client₁ := { client with
            held := A.add client.held target.amount,
            available := A.sub client.available target.amount }
          { transfers := insertL t.id { target with disputed := true } state.transfers,
            clients := insertL target.client_id client₁ state.clients }

/-- `process_resolve`. Rejects an unknown transaction id, an undisputed
target, a client mismatch, or a locked account; else clears the disputed flag
and moves the amount back from `held` to `available`. -/
def process_resolve (A : Arith) (state : State) (t : Transaction) : State :=
  match lookupL t.id state.transfers with
  | none => state
  | some target =>
    if target.disputed = false ∨ target.client_id ≠ t.client_id then state
    else
      match lookupL target.client_id state.clients with
      | none => state
      | some client =>
        if client.locked then state
        else
          let client₁ := { client with
            held := A.sub client.held target.amount,
            available := A.add client.available target.amount }
          { transfers := insertL t.id { target with disputed := false } state.transfers,
            clients := insertL target.client_id client₁ state.clients }

/-- `process_chargeback`. Rejects an unknown transaction id, an undisputed
target, a client mismatch, or a locked account; else locks the account and
subtracts the amount from `held` and `total` (the stored record keeps its
disputed flag). -/
def process_chargeback (A : Arith) (state : State) (t : Transaction) : State :=
  match lookupL t.id state.transfers with
  | none => state
  | some target =>
    if target.disputed = false ∨ target.client_id ≠ t.client_id then state
    else
      match lookupL target.client_id state.clients with
      | none => state
      | some client =>
        if client.locked then state
        else
          let client₁ := { client with
            locked := true,
            held := A.sub client.held target.amount,
            total := A.sub client.total target.amount }
          { state with clients := insertL target.client_id client₁ state.clients }

/-- `process_transaction`: dispatch on the record kind. -/
def process_transaction (A : Arith) (state : State) (t : Transaction) : State :=
  match t.transaction_type with
  | .deposit => process_deposit A state t
  | .withdrawal => process_withdrawal A state t
  | .dispute => process_dispute A state t
  | .resolve => process_resolve A state t
  | .chargeback => process_chargeback A state t

/-- The fold of `main.rs` (`try_fold(State::new(), …)`) from an arbitrary
start state. -/
def applyAll (A : Arith) (s : State) (ts : List Transaction) : State :=
  ts.foldl (process_transaction A) s

/-- A state is reachable when some record sequence produces it from the
empty state. -/
def Reachable (A : Arith) (s : State) : Prop :=
  ∃ ts : List Transaction, s = applyAll A State.new ts

/-! ### Derived predicates -/

/-- The engine's business-rule rejection conditions, read off the guard
clauses of `processor.rs`: duplicate stored id or locked account for a
deposit; duplicate stored id, unknown client, locked account or insufficient
`available` for a withdrawal; unknown id, dispute-state/kind mismatch, client
mismatch or locked account for the three dispute-family kinds. -/
def rejects (state : State) (t : Transaction) : Bool :=
  match t.transaction_type with
  | .deposit =>
    (lookupL t.id state.transfers).isSome ||
      (match lookupL t.client_id state.clients with
       | some c => c.locked
       | none => false)
  | .withdrawal =>
    (lookupL t.id state.transfers).isSome ||
      (match lookupL t.client_id state.clients with
       | none => true
       | some c => c.locked || decide (c.available < t.amount))
  | .dispute =>
    match lookupL t.id state.transfers with
    | none => true
    | some target =>
      target.disputed || decide (target.transaction_type ≠ TransactionType.deposit) ||
        decide (target.client_id ≠ t.client_id) ||
        (match lookupL target.client_id state.clients with
         | some c => c.locked
         | none => false)
  | .resolve =>
    match lookupL t.id state.transfers with
    | none => true
    | some target =>
      !target.disputed || decide (target.client_id ≠ t.client_id) ||
        (match lookupL target.client_id state.clients with
         | some c => c.locked
         | none => false)
  | .chargeback =>
    match lookupL t.id state.transfers with
    | none => true
    | some target =>
      !target.disputed || decide (target.client_id ≠ t.client_id) ||
        (match lookupL target.client_id state.clients with
         | some c => c.locked
         | none => false)

/-- Every account satisfies `total = available + held` as exact rationals. -/
def BalancedOK (s : State) : Prop :=
  ∀ k c, lookupL k s.clients = some c → c.total = c.available + c.held

/-- Every stored transaction's `client_id` is a key of the clients map; this
is what makes the `.unwrap()` account lookups of `process_dispute`,
`process_resolve` and `process_chargeback` safe. -/
def OwnersStored (s : State) : Prop :=
  ∀ txid tx, lookupL txid s.transfers = some tx →
    (lookupL tx.client_id s.clients).isSome = true

/-! ### Concrete fixtures for witnesses and counterexamples -/

/-- A deposit of amount 1 by client 1 with transaction id 1. -/
def dep₁ : Transaction := ⟨TransactionType.deposit, 1, 1, 1, false⟩

/-- The stored form of `dep₁` after a dispute. -/
def dep₁d : Transaction := ⟨TransactionType.deposit, 1, 1, 1, true⟩

/-- A stored withdrawal of amount 1 by client 1 with transaction id 5. -/
def wd₅ : Transaction := ⟨TransactionType.withdrawal, 1, 5, 1, false⟩

/-- Client 1 after the single deposit `dep₁`. -/
def cl₁ : Client := ⟨1, false, 1, 0, 1⟩

/-- Client 1 after `dep₁` is disputed. -/
def cl₁d : Client := ⟨1, false, 0, 1, 1⟩

/-- State after processing `dep₁` from scratch. -/
def sDep : State := ⟨[(1, dep₁)], [(1, cl₁)]⟩

/-- State after processing `dep₁` then a dispute of it. -/
def sDisp : State := ⟨[(1, dep₁d)], [(1, cl₁d)]⟩

/-- A state whose only stored transaction is the withdrawal `wd₅`. -/
def sWd : State := ⟨[(5, wd₅)], [(1, cl₁)]⟩

/-- State after `dep₁`, dispute, chargeback: client 1 is locked and empty. -/
def sLocked : State := ⟨[(1, dep₁d)], [(1, ⟨1, true, 0, 0, 0⟩)]⟩

/-- A dispute record naming transaction 1 for client 1. -/
def dispRec : Transaction := ⟨TransactionType.dispute, 1, 1, 0, false⟩

/-- A resolve record naming transaction 1 for client 1. -/
def resRec : Transaction := ⟨TransactionType.resolve, 1, 1, 0, false⟩

/-- A chargeback record naming transaction 1 for client 1. -/
def cbRec : Transaction := ⟨TransactionType.chargeback, 1, 1, 0, false⟩

/-- Record sequence refuting exact `f64` balance: deposit 2, dispute it
(`held = 2`), deposit `2^53`, deposit 1. The last deposit rounds `total` up
to `2^53 + 4` while `available` stays `2^53`, so `available ⊕ held` and
`available + held` are both `2^53 + 2 ≠ total`. -/
def c1recs : List Transaction :=
  [ ⟨TransactionType.deposit, 1, 1, 2, false⟩,
    ⟨TransactionType.dispute, 1, 1, 0, false⟩,
    ⟨TransactionType.deposit, 1, 2, 9007199254740992, false⟩,
    ⟨TransactionType.deposit, 1, 3, 1, false⟩ ]

/-- Deposits leaving client 1 with `available = total = 2^53 + 2` and a
stored deposit of amount 1: the base state of the C4 counterexample. -/
def c4recs : List Transaction :=
  [ ⟨TransactionType.deposit, 1, 1, 1, false⟩,
    ⟨TransactionType.deposit, 1, 2, 9007199254740992, false⟩,
    ⟨TransactionType.deposit, 1, 3, 2, false⟩ ]

/-- Two small deposits by client 1, used to witness reachable-state facts. -/
def wrecs : List Transaction :=
  [ ⟨TransactionType.deposit, 1, 1, 2, false⟩,
    ⟨TransactionType.deposit, 1, 2, 1, false⟩ ]

/-- Deposit-only invariant: every account has `held = 0` and
`total = available`. -/
def HeldZero (s : State) : Prop :=
  ∀ k c, lookupL k s.clients = some c → c.held = 0 ∧ c.total = c.available

/-! ### Association-list lemmas -/

theorem lookupL_insertL_self {α : Type} (k : ℕ) (v : α) (l : List (ℕ × α)) :
    lookupL k (insertL k v l) = some v := by
  induction l with
  | nil => simp [insertL, lookupL]
  | cons p rest ih =>
    obtain ⟨k₁, v₁⟩ := p
    by_cases h : k₁ = k
    · simp [insertL, lookupL, h]
    · simp [insertL, lookupL, h, ih]

theorem lookupL_insertL_ne {α : Type} {k₁ k : ℕ} (h : k₁ ≠ k) (v : α) (l : List (ℕ × α)) :
    lookupL k (insertL k₁ v l) = lookupL k l := by
  induction l with
  | nil => simp [insertL, lookupL, h]
  | cons p rest ih =>
    obtain ⟨k₂, v₂⟩ := p
    by_cases h₂ : k₂ = k₁
    · subst h₂
      simp [insertL, lookupL, h]
    · by_cases h₃ : k₂ = k
      · subst h₃
        simp [insertL, lookupL, h₂]
      · simp [insertL, lookupL, h₂, h₃, ih]

theorem lookupL_insertL_cases {α : Type} (k₁ k : ℕ) (v : α) (l : List (ℕ × α)) :
    lookupL k (insertL k₁ v l) = if k₁ = k then some v else lookupL k l := by
  by_cases h : k₁ = k
  · subst h
    simp [lookupL_insertL_self]
  · simp [h, lookupL_insertL_ne h]

theorem insertL_lookup_eq {α : Type} {k : ℕ} {v : α} {l : List (ℕ × α)}
    (h : lookupL k l = some v) : insertL k v l = l := by
  induction l with
  | nil => simp [lookupL] at h
  | cons p rest ih =>
    obtain ⟨k₁, v₁⟩ := p
    by_cases h₁ : k₁ = k
    · subst h₁
      simp [lookupL] at h
      simp [insertL, h]
    · simp [lookupL, h₁] at h
      simp [insertL, h₁, ih h]

theorem insertL_insertL {α : Type} (k : ℕ) (v w : α) (l : List (ℕ × α)) :
    insertL k v (insertL k w l) = insertL k v l := by
  induction l with
  | nil => simp [insertL]
  | cons p rest ih =>
    obtain ⟨k₁, v₁⟩ := p
    by_cases h : k₁ = k
    · simp [insertL, h]
    · simp [insertL, h, ih]

theorem lookupL_insertL_isSome {α : Type} (k₁ k : ℕ) (v : α) (l : List (ℕ × α))
    (h : (lookupL k l).isSome = true) : (lookupL k (insertL k₁ v l)).isSome = true := by
  rw [lookupL_insertL_cases]
  split
  · rfl
  · exact h

/-! ### A complete case analysis of one engine step -/

/-- Every application of `process_transaction` either returns the state
unchanged or is one of the five success shapes, with all the guard facts
that the corresponding branch of `processor.rs` checked. -/
theorem process_transaction_cases (A : Arith) (s : State) (t : Transaction) :
    process_transaction A s t = s
  ∨ (t.transaction_type = TransactionType.deposit ∧
      lookupL t.id s.transfers = none ∧
      ∃ cs₀ c,
        ((lookupL t.client_id s.clients = some c ∧ cs₀ = s.clients) ∨
         (lookupL t.client_id s.clients = none ∧ c = Client.new t.client_id ∧
          cs₀ = insertL t.client_id c s.clients)) ∧
        c.locked = false ∧
        process_transaction A s t =
          { transfers := insertL t.id t s.transfers,
            clients := insertL t.client_id
              { c with available := A.add c.available t.amount,
                       total := A.add c.total t.amount } cs₀ })
  ∨ (t.transaction_type = TransactionType.withdrawal ∧
      lookupL t.id s.transfers = none ∧
      ∃ c, lookupL t.client_id s.clients = some c ∧
        c.locked = false ∧ ¬(c.available < t.amount) ∧
        process_transaction A s t =
          { transfers := insertL t.id t s.transfers,
            clients := insertL t.client_id
              { c with available := A.sub c.available t.amount,
                       total := A.sub c.total t.amount } s.clients })
  ∨ (t.transaction_type = TransactionType.dispute ∧
      ∃ target c, lookupL t.id s.transfers = some target ∧
        target.disputed = false ∧
        target.transaction_type = TransactionType.deposit ∧
        target.client_id = t.client_id ∧
        lookupL target.client_id s.clients = some c ∧
        c.locked = false ∧
        process_transaction A s t =
          { transfers := insertL t.id { target with disputed := true } s.transfers,
            clients := insertL target.client_id
              { c with held := A.add c.held target.amount,
                       available := A.sub c.available target.amount } s.clients })
  ∨ (t.transaction_type = TransactionType.resolve ∧
      ∃ target c, lookupL t.id s.transfers = some target ∧
        target.disputed = true ∧
        target.client_id = t.client_id ∧
        lookupL target.client_id s.clients = some c ∧
        c.locked = false ∧
        process_transaction A s t =
          { transfers := insertL t.id { target with disputed := false } s.transfers,
            clients := insertL target.client_id
              { c with held := A.sub c.held target.amount,
                       available := A.add c.available target.amount } s.clients })
  ∨ (t.transaction_type = TransactionType.chargeback ∧
      ∃ target c, lookupL t.id s.transfers = some target ∧
        target.disputed = true ∧
        target.client_id = t.client_id ∧
        lookupL target.client_id s.clients = some c ∧
        c.locked = false ∧
        process_transaction A s t =
          { transfers := s.transfers,
            clients := insertL target.client_id
              { c with locked := true,
                       held := A.sub c.held target.amount,
                       total := A.sub c.total target.amount } s.clients }) := by
  unfold process_transaction
  cases hk : t.transaction_type
  case deposit =>
    cases hdup : lookupL t.id s.transfers with
    | some tx =>
      left
      unfold process_deposit
      simp [hdup]
    | none =>
      cases hcl : lookupL t.client_id s.clients with
      | some c =>
        cases hl : c.locked with
        | true =>
          left
          unfold process_deposit
          simp [hdup, hcl, hl]
        | false =>
          have hres : process_deposit A s t =
              { transfers := insertL t.id t s.transfers,
                clients := insertL t.client_id
                  { c with available := A.add c.available t.amount,
                           total := A.add c.total t.amount } s.clients } := by
            unfold process_deposit
            simp [hdup, hcl, hl]
          exact Or.inr (Or.inl ⟨rfl, rfl, s.clients, c, Or.inl ⟨rfl, rfl⟩, hl, hres⟩)
      | none =>
        have hres : process_deposit A s t =
            { transfers := insertL t.id t s.transfers,
              clients := insertL t.client_id
                { Client.new t.client_id with
                    available := A.add (Client.new t.client_id).available t.amount,
                    total := A.add (Client.new t.client_id).total t.amount }
                (insertL t.client_id (Client.new t.client_id) s.clients) } := by
          unfold process_deposit
          simp [hdup, hcl, lookupL_insertL_self, Client.new]
        exact Or.inr (Or.inl ⟨rfl, rfl,
          insertL t.client_id (Client.new t.client_id) s.clients,
          Client.new t.client_id, Or.inr ⟨rfl, rfl, rfl⟩, rfl, hres⟩)
  case withdrawal =>
    cases hdup : lookupL t.id s.transfers with
    | some tx =>
      left
      unfold process_withdrawal
      simp [hdup]
    | none =>
      cases hcl : lookupL t.client_id s.clients with
      | none =>
        left
        unfold process_withdrawal
        simp [hdup, hcl]
      | some c =>
        cases hl : c.locked with
        | true =>
          left
          unfold process_withdrawal
          simp [hdup, hcl, hl]
        | false =>
          by_cases hav : c.available < t.amount
          · left
            unfold process_withdrawal
            simp [hdup, hcl, hav]
          · have hres : process_withdrawal A s t =
                { transfers := insertL t.id t s.transfers,
                  clients := insertL t.client_id
                    { c with available := A.sub c.available t.amount,
                             total := A.sub c.total t.amount } s.clients } := by
              unfold process_withdrawal
              simp [hdup, hcl, hl, hav]
            exact Or.inr (Or.inr (Or.inl ⟨rfl, rfl, c, rfl, hl, hav, hres⟩))
  case dispute =>
    cases hdup : lookupL t.id s.transfers with
    | none =>
      left
      unfold process_dispute
      rw [hdup]
    | some target =>
      cases hdisp : target.disputed with
      | true =>
        left
        unfold process_dispute
        rw [hdup]
        simp only
        rw [if_pos (Or.inl hdisp)]
      | false =>
        by_cases htt : target.transaction_type = TransactionType.deposit
        · by_cases hcid : target.client_id = t.client_id
          · cases hcl : lookupL target.client_id s.clients with
            | none =>
              left
              unfold process_dispute
              rw [hdup]
              simp only
              rw [if_neg (by simp [hdisp, htt, hcid])]
              rw [hcl]
            | some c =>
              cases hl : c.locked with
              | true =>
                left
                unfold process_dispute
                rw [hdup]
                simp only
                rw [if_neg (by simp [hdisp, htt, hcid])]
                rw [hcl]
                simp [hl]
              | false =>
                have hres : process_dispute A s t =
                    { transfers := insertL t.id { target with disputed := true } s.transfers,
                      clients := insertL target.client_id
                        { c with held := A.add c.held target.amount,
                                 available := A.sub c.available target.amount } s.clients } := by
                  unfold process_dispute
                  rw [hdup]
                  simp only
                  rw [if_neg (by simp [hdisp, htt, hcid])]
                  rw [hcl]
                  simp [hl]
                exact Or.inr (Or.inr (Or.inr (Or.inl ⟨rfl, target, c, rfl,
                  hdisp, htt, hcid, hcl, hl, hres⟩)))
          · left
            unfold process_dispute
            rw [hdup]
            simp only
            rw [if_pos (Or.inr (Or.inr hcid))]
        · left
          unfold process_dispute
          rw [hdup]
          simp only
          rw [if_pos (Or.inr (Or.inl htt))]
  case resolve =>
    cases hdup : lookupL t.id s.transfers with
    | none =>
      left
      unfold process_resolve
      rw [hdup]
    | some target =>
      cases hdisp : target.disputed with
      | false =>
        left
        unfold process_resolve
        rw [hdup]
        simp only
        rw [if_pos (Or.inl hdisp)]
      | true =>
        by_cases hcid : target.client_id = t.client_id
        · cases hcl : lookupL target.client_id s.clients with
          | none =>
            left
            unfold process_resolve
            rw [hdup]
            simp only
            rw [if_neg (by simp [hdisp, hcid])]
            rw [hcl]
          | some c =>
            cases hl : c.locked with
            | true =>
              left
              unfold process_resolve
              rw [hdup]
              simp only
              rw [if_neg (by simp [hdisp, hcid])]
              rw [hcl]
              simp [hl]
            | false =>
              have hres : process_resolve A s t =
                  { transfers := insertL t.id { target with disputed := false } s.transfers,
                    clients := insertL target.client_id
                      { c with held := A.sub c.held target.amount,
                               available := A.add c.available target.amount } s.clients } := by
                unfold process_resolve
                rw [hdup]
                simp only
                rw [if_neg (by simp [hdisp, hcid])]
                rw [hcl]
                simp [hl]
              exact Or.inr (Or.inr (Or.inr (Or.inr (Or.inl ⟨rfl, target, c, rfl,
                hdisp, hcid, hcl, hl, hres⟩))))
        · left
          unfold process_resolve
          rw [hdup]
          simp only
          rw [if_pos (Or.inr hcid)]
  case chargeback =>
    cases hdup : lookupL t.id s.transfers with
    | none =>
      left
      unfold process_chargeback
      rw [hdup]
    | some target =>
      cases hdisp : target.disputed with
      | false =>
        left
        unfold process_chargeback
        rw [hdup]
        simp only
        rw [if_pos (Or.inl hdisp)]
      | true =>
        by_cases hcid : target.client_id = t.client_id
        · cases hcl : lookupL target.client_id s.clients with
          | none =>
            left
            unfold process_chargeback
            rw [hdup]
            simp only
            rw [if_neg (by simp [hdisp, hcid])]
            rw [hcl]
          | some c =>
            cases hl : c.locked with
            | true =>
              left
              unfold process_chargeback
              rw [hdup]
              simp only
              rw [if_neg (by simp [hdisp, hcid])]
              rw [hcl]
              simp [hl]
            | false =>
              have hres : process_chargeback A s t =
                  { transfers := s.transfers,
                    clients := insertL target.client_id
                      { c with locked := true,
                               held := A.sub c.held target.amount,
                               total := A.sub c.total target.amount } s.clients } := by
                unfold process_chargeback
                rw [hdup]
                simp only
                rw [if_neg (by simp [hdisp, hcid])]
                rw [hcl]
                simp [hl]
              exact Or.inr (Or.inr (Or.inr (Or.inr (Or.inr ⟨rfl, target, c, rfl,
                hdisp, hcid, hcl, hl, hres⟩))))
        · left
          unfold process_chargeback
          rw [hdup]
          simp only
          rw [if_pos (Or.inr hcid)]

/-! ### Step lemmas -/

theorem rejects_noop (A : Arith) (s : State) (t : Transaction)
    (h : rejects s t = true) : process_transaction A s t = s := by
  rcases process_transaction_cases A s t with heq |
    ⟨hk, hdup, cs₀, c, hcs, hl, heq⟩ |
    ⟨hk, hdup, c, hcl, hl, hav, heq⟩ |
    ⟨hk, target, c, hdup, hdisp, htt, hcid, hcl, hl, heq⟩ |
    ⟨hk, target, c, hdup, hdisp, hcid, hcl, hl, heq⟩ |
    ⟨hk, target, c, hdup, hdisp, hcid, hcl, hl, heq⟩
  · exact heq
  · rcases hcs with ⟨hcl, _⟩ | ⟨hcl, hcnew, _⟩
    · simp [rejects, hk, hdup, hcl, hl] at h
    · simp [rejects, hk, hdup, hcl] at h
  · simp [rejects, hk, hdup, hcl, hl, hav] at h
  · rw [hcid] at hcl
    simp [rejects, hk, hdup, hdisp, htt, hcid, hcl, hl] at h
  · rw [hcid] at hcl
    simp [rejects, hk, hdup, hdisp, hcid, hcl, hl] at h
  · rw [hcid] at hcl
    simp [rejects, hk, hdup, hdisp, hcid, hcl, hl] at h

theorem balanced_step (s : State) (t : Transaction) (h : BalancedOK s) :
    BalancedOK (process_transaction exactArith s t) := by
  rcases process_transaction_cases exactArith s t with heq |
    ⟨hk, hdup, cs₀, c, hcs, hl, heq⟩ |
    ⟨hk, hdup, c, hcl, hl, hav, heq⟩ |
    ⟨hk, target, c, hdup, hdisp, htt, hcid, hcl, hl, heq⟩ |
    ⟨hk, target, c, hdup, hdisp, hcid, hcl, hl, heq⟩ |
    ⟨hk, target, c, hdup, hdisp, hcid, hcl, hl, heq⟩
  · rw [heq]; exact h
  · -- deposit
    have hbc : c.total = c.available + c.held := by
      rcases hcs with ⟨hcl, _⟩ | ⟨_, hcnew, _⟩
      · exact h _ c hcl
      · rw [hcnew]; simp [Client.new]
    have hcs₀ : ∀ k c₂, lookupL k cs₀ = some c₂ → c₂.total = c₂.available + c₂.held := by
      rcases hcs with ⟨_, hc0⟩ | ⟨_, hcnew, hc0⟩
      · rw [hc0]; exact h
      · rw [hc0]
        intro k c₂ hk2
        rw [lookupL_insertL_cases] at hk2
        by_cases hkk : t.client_id = k
        · rw [if_pos hkk] at hk2
          cases hk2
          rw [hcnew]
          simp [Client.new]
        · rw [if_neg hkk] at hk2
          exact h _ _ hk2
    rw [heq]
    intro k c₂ hk2
    simp only at hk2
    rw [lookupL_insertL_cases] at hk2
    by_cases hkk : t.client_id = k
    · rw [if_pos hkk] at hk2
      cases hk2
      simp only [exactArith]
      rw [hbc]
      ring
    · rw [if_neg hkk] at hk2
      exact hcs₀ _ _ hk2
  · -- withdrawal
    have hbc : c.total = c.available + c.held := h _ c hcl
    rw [heq]
    intro k c₂ hk2
    simp only at hk2
    rw [lookupL_insertL_cases] at hk2
    by_cases hkk : t.client_id = k
    · rw [if_pos hkk] at hk2
      cases hk2
      simp only [exactArith]
      rw [hbc]
      ring
    · rw [if_neg hkk] at hk2
      exact h _ _ hk2
  · -- dispute
    have hbc : c.total = c.available + c.held := h _ c hcl
    rw [heq]
    intro k c₂ hk2
    simp only at hk2
    rw [lookupL_insertL_cases] at hk2
    by_cases hkk : target.client_id = k
    · rw [if_pos hkk] at hk2
      cases hk2
      simp only [exactArith]
      rw [hbc]
      ring
    · rw [if_neg hkk] at hk2
      exact h _ _ hk2
  · -- resolve
    have hbc : c.total = c.available + c.held := h _ c hcl
    rw [heq]
    intro k c₂ hk2
    simp only at hk2
    rw [lookupL_insertL_cases] at hk2
    by_cases hkk : target.client_id = k
    · rw [if_pos hkk] at hk2
      cases hk2
      simp only [exactArith]
      rw [hbc]
      ring
    · rw [if_neg hkk] at hk2
      exact h _ _ hk2
  · -- chargeback
    have hbc : c.total = c.available + c.held := h _ c hcl
    rw [heq]
    intro k c₂ hk2
    simp only at hk2
    rw [lookupL_insertL_cases] at hk2
    by_cases hkk : target.client_id = k
    · rw [if_pos hkk] at hk2
      cases hk2
      simp only [exactArith]
      rw [hbc]
      ring
    · rw [if_neg hkk] at hk2
      exact h _ _ hk2

theorem heldzero_step (A : Arith) (s : State) (t : Transaction)
    (ht : t.transaction_type = TransactionType.deposit) (h : HeldZero s) :
    HeldZero (process_transaction A s t) := by
  rcases process_transaction_cases A s t with heq |
    ⟨hk, hdup, cs₀, c, hcs, hl, heq⟩ |
    ⟨hk, hdup, c, hcl, hl, hav, heq⟩ |
    ⟨hk, target, c, hdup, hdisp, htt, hcid, hcl, hl, heq⟩ |
    ⟨hk, target, c, hdup, hdisp, hcid, hcl, hl, heq⟩ |
    ⟨hk, target, c, hdup, hdisp, hcid, hcl, hl, heq⟩
  · rw [heq]; exact h
  · have hbc : c.held = 0 ∧ c.total = c.available := by
      rcases hcs with ⟨hcl, _⟩ | ⟨_, hcnew, _⟩
      · exact h _ c hcl
      · rw [hcnew]; simp [Client.new]
    have hcs₀ : ∀ k c₂, lookupL k cs₀ = some c₂ → c₂.held = 0 ∧ c₂.total = c₂.available := by
      rcases hcs with ⟨_, hc0⟩ | ⟨_, hcnew, hc0⟩
      · rw [hc0]; exact h
      · rw [hc0]
        intro k c₂ hk2
        rw [lookupL_insertL_cases] at hk2
        by_cases hkk : t.client_id = k
        · rw [if_pos hkk] at hk2
          cases hk2
          rw [hcnew]
          simp [Client.new]
        · rw [if_neg hkk] at hk2
          exact h _ _ hk2
    rw [heq]
    intro k c₂ hk2
    simp only at hk2
    rw [lookupL_insertL_cases] at hk2
    by_cases hkk : t.client_id = k
    · rw [if_pos hkk] at hk2
      cases hk2
      simp only
      rw [hbc.1, hbc.2]
      exact ⟨rfl, rfl⟩
    · rw [if_neg hkk] at hk2
      exact hcs₀ _ _ hk2
  · rw [ht] at hk; cases hk
  · rw [ht] at hk; cases hk
  · rw [ht] at hk; cases hk
  · rw [ht] at hk; cases hk

theorem owners_step (A : Arith) (s : State) (t : Transaction)
    (h : OwnersStored s) : OwnersStored (process_transaction A s t) := by
  rcases process_transaction_cases A s t with heq |
    ⟨hk, hdup, cs₀, c, hcs, hl, heq⟩ |
    ⟨hk, hdup, c, hcl, hl, hav, heq⟩ |
    ⟨hk, target, c, hdup, hdisp, htt, hcid, hcl, hl, heq⟩ |
    ⟨hk, target, c, hdup, hdisp, hcid, hcl, hl, heq⟩ |
    ⟨hk, target, c, hdup, hdisp, hcid, hcl, hl, heq⟩
  · rw [heq]; exact h
  · -- deposit: the stored record's owner is inserted; old owners persist
    have hmono : ∀ k, (lookupL k s.clients).isSome = true →
        (lookupL k cs₀).isSome = true := by
      rcases hcs with ⟨_, hc0⟩ | ⟨_, _, hc0⟩
      · rw [hc0]; exact fun k hk₂ => hk₂
      · rw [hc0]; exact fun k hk₂ => lookupL_insertL_isSome _ _ _ _ hk₂
    rw [heq]
    intro txid tx htx
    simp only at htx ⊢
    rw [lookupL_insertL_cases] at htx
    by_cases hkk : t.id = txid
    · rw [if_pos hkk] at htx
      cases htx
      rw [lookupL_insertL_self]
      rfl
    · rw [if_neg hkk] at htx
      exact lookupL_insertL_isSome _ _ _ _ (hmono _ (h _ _ htx))
  · rw [heq]
    intro txid tx htx
    simp only at htx ⊢
    rw [lookupL_insertL_cases] at htx
    by_cases hkk : t.id = txid
    · rw [if_pos hkk] at htx
      cases htx
      rw [lookupL_insertL_self]
      rfl
    · rw [if_neg hkk] at htx
      exact lookupL_insertL_isSome _ _ _ _ (h _ _ htx)
  · -- dispute: the restored record keeps its owner
    rw [heq]
    intro txid tx htx
    simp only at htx ⊢
    rw [lookupL_insertL_cases] at htx
    by_cases hkk : t.id = txid
    · rw [if_pos hkk] at htx
      cases htx
      simp only
      rw [lookupL_insertL_self]
      rfl
    · rw [if_neg hkk] at htx
      exact lookupL_insertL_isSome _ _ _ _ (h _ _ htx)
  · rw [heq]
    intro txid tx htx
    simp only at htx ⊢
    rw [lookupL_insertL_cases] at htx
    by_cases hkk : t.id = txid
    · rw [if_pos hkk] at htx
      cases htx
      simp only
      rw [lookupL_insertL_self]
      rfl
    · rw [if_neg hkk] at htx
      exact lookupL_insertL_isSome _ _ _ _ (h _ _ htx)
  · rw [heq]
    intro txid tx htx
    simp only at htx ⊢
    exact lookupL_insertL_isSome _ _ _ _ (h _ _ htx)

theorem locked_step (A : Arith) (s : State) (cid : ℕ) (c : Client) (t : Transaction)
    (hc : lookupL cid s.clients = some c) (hl : c.locked = true) :
    lookupL cid (process_transaction A s t).clients = some c ∧
    (∀ txid tx, lookupL txid s.transfers = some tx → tx.client_id = cid →
        lookupL txid (process_transaction A s t).transfers = some tx) ∧
    (t.client_id = cid → process_transaction A s t = s) := by
  rcases process_transaction_cases A s t with heq |
    ⟨hk, hdup, cs₀, c₀, hcs, hl₀, heq⟩ |
    ⟨hk, hdup, c₀, hcl, hl₀, hav, heq⟩ |
    ⟨hk, target, c₀, hdup, hdisp, htt, hcid, hcl, hl₀, heq⟩ |
    ⟨hk, target, c₀, hdup, hdisp, hcid, hcl, hl₀, heq⟩ |
    ⟨hk, target, c₀, hdup, hdisp, hcid, hcl, hl₀, heq⟩
  · rw [heq]
    exact ⟨hc, fun txid tx htx _ => htx, fun _ => rfl⟩
  · -- deposit success: the touched client is unlocked, so it is not cid
    have hne : t.client_id ≠ cid := by
      intro hkk
      rcases hcs with ⟨hcl, _⟩ | ⟨hcl, _, _⟩
      · rw [hkk, hc] at hcl
        cases hcl
        rw [hl] at hl₀
        cases hl₀
      · rw [hkk, hc] at hcl
        cases hcl
    have hcs₀ : lookupL cid cs₀ = some c := by
      rcases hcs with ⟨_, hc0⟩ | ⟨_, _, hc0⟩
      · rw [hc0]; exact hc
      · rw [hc0, lookupL_insertL_ne hne]; exact hc
    refine ⟨?_, ?_, ?_⟩
    · rw [heq]
      simp only
      rw [lookupL_insertL_ne hne]
      exact hcs₀
    · intro txid tx htx _
      have hne₂ : t.id ≠ txid := by
        intro hkk
        rw [hkk, htx] at hdup
        cases hdup
      rw [heq]
      simp only
      rw [lookupL_insertL_ne hne₂]
      exact htx
    · intro hkk
      exact absurd hkk hne
  · -- withdrawal success
    have hne : t.client_id ≠ cid := by
      intro hkk
      rw [hkk, hc] at hcl
      cases hcl
      rw [hl] at hl₀
      cases hl₀
    refine ⟨?_, ?_, ?_⟩
    · rw [heq]
      simp only
      rw [lookupL_insertL_ne hne]
      exact hc
    · intro txid tx htx _
      have hne₂ : t.id ≠ txid := by
        intro hkk
        rw [hkk, htx] at hdup
        cases hdup
      rw [heq]
      simp only
      rw [lookupL_insertL_ne hne₂]
      exact htx
    · intro hkk
      exact absurd hkk hne
  · -- dispute success: the target's owner is unlocked, so it is not cid
    have hne : target.client_id ≠ cid := by
      intro hkk
      rw [hkk, hc] at hcl
      cases hcl
      rw [hl] at hl₀
      cases hl₀
    refine ⟨?_, ?_, ?_⟩
    · rw [heq]
      simp only
      rw [lookupL_insertL_ne hne]
      exact hc
    · intro txid tx htx hown
      have hne₂ : t.id ≠ txid := by
        intro hkk
        rw [hkk, htx] at hdup
        cases hdup
        exact hne (hown ▸ rfl)
      rw [heq]
      simp only
      rw [lookupL_insertL_ne hne₂]
      exact htx
    · intro hkk
      exact absurd (hcid.trans hkk) hne
  · -- resolve success
    have hne : target.client_id ≠ cid := by
      intro hkk
      rw [hkk, hc] at hcl
      cases hcl
      rw [hl] at hl₀
      cases hl₀
    refine ⟨?_, ?_, ?_⟩
    · rw [heq]
      simp only
      rw [lookupL_insertL_ne hne]
      exact hc
    · intro txid tx htx hown
      have hne₂ : t.id ≠ txid := by
        intro hkk
        rw [hkk, htx] at hdup
        cases hdup
        exact hne (hown ▸ rfl)
      rw [heq]
      simp only
      rw [lookupL_insertL_ne hne₂]
      exact htx
    · intro hkk
      exact absurd (hcid.trans hkk) hne
  · -- chargeback success
    have hne : target.client_id ≠ cid := by
      intro hkk
      rw [hkk, hc] at hcl
      cases hcl
      rw [hl] at hl₀
      cases hl₀
    refine ⟨?_, ?_, ?_⟩
    · rw [heq]
      simp only
      rw [lookupL_insertL_ne hne]
      exact hc
    · intro txid tx htx _
      rw [heq]
      exact htx
    · intro hkk
      exact absurd (hcid.trans hkk) hne

/-! ### Fold lemmas and effect lemmas -/

theorem balanced_new : BalancedOK State.new := by
  intro k c hc
  simp [State.new, lookupL] at hc

theorem heldzero_new : HeldZero State.new := by
  intro k c hc
  simp [State.new, lookupL] at hc

theorem owners_new : OwnersStored State.new := by
  intro txid tx htx
  simp [State.new, lookupL] at htx

theorem balanced_applyAll (ts : List Transaction) (s : State) (h : BalancedOK s) :
    BalancedOK (applyAll exactArith s ts) := by
  induction ts generalizing s with
  | nil => exact h
  | cons t ts ih => exact ih _ (balanced_step s t h)

theorem heldzero_applyAll (A : Arith) (ts : List Transaction) :
    ∀ s : State, (∀ t ∈ ts, t.transaction_type = TransactionType.deposit) → HeldZero s →
      HeldZero (applyAll A s ts) := by
  induction ts with
  | nil => exact fun _ _ h => h
  | cons t ts ih =>
    intro s hts h
    exact ih _ (fun t₂ ht₂ => hts t₂ (List.mem_cons_of_mem _ ht₂))
      (heldzero_step A s t (hts t (List.mem_cons_self _ _)) h)

theorem owners_applyAll (A : Arith) (ts : List Transaction) (s : State)
    (h : OwnersStored s) : OwnersStored (applyAll A s ts) := by
  induction ts generalizing s with
  | nil => exact h
  | cons t ts ih => exact ih _ (owners_step A s t h)

theorem locked_applyAll (A : Arith) (s : State) (cid : ℕ) (c : Client)
    (ts : List Transaction) (hc : lookupL cid s.clients = some c) (hl : c.locked = true) :
    lookupL cid (applyAll A s ts).clients = some c ∧
    (∀ txid tx, lookupL txid s.transfers = some tx → tx.client_id = cid →
        lookupL txid (applyAll A s ts).transfers = some tx) := by
  induction ts generalizing s with
  | nil => exact ⟨hc, fun _ _ htx _ => htx⟩
  | cons t ts ih =>
    have step := locked_step A s cid c t hc hl
    have ihh := ih (process_transaction A s t) step.1
    exact ⟨ihh.1, fun txid tx htx hown => ihh.2 txid tx (step.2.1 txid tx htx hown) hown⟩

theorem dispute_effect (A : Arith) (s : State) (t target : Transaction) (c : Client)
    (hk : t.transaction_type = TransactionType.dispute)
    (ht : lookupL t.id s.transfers = some target)
    (hd : target.disputed = false)
    (hdep : target.transaction_type = TransactionType.deposit)
    (hcid : target.client_id = t.client_id)
    (hc : lookupL target.client_id s.clients = some c)
    (hl : c.locked = false) :
    process_transaction A s t =
      { transfers := insertL t.id { target with disputed := true } s.transfers,
        clients := insertL target.client_id
          { c with held := A.add c.held target.amount,
                   available := A.sub c.available target.amount } s.clients } := by
  unfold process_transaction
  rw [hk]
  unfold process_dispute
  rw [ht]
  simp only
  rw [if_neg (by simp [hd, hdep, hcid])]
  rw [hc]
  simp only
  rw [if_neg (by simp [hl])]

theorem resolve_effect (A : Arith) (s : State) (t target : Transaction) (c : Client)
    (hk : t.transaction_type = TransactionType.resolve)
    (ht : lookupL t.id s.transfers = some target)
    (hd : target.disputed = true)
    (hcid : target.client_id = t.client_id)
    (hc : lookupL target.client_id s.clients = some c)
    (hl : c.locked = false) :
    process_transaction A s t =
      { transfers := insertL t.id { target with disputed := false } s.transfers,
        clients := insertL target.client_id
          { c with held := A.sub c.held target.amount,
                   available := A.add c.available target.amount } s.clients } := by
  unfold process_transaction
  rw [hk]
  unfold process_resolve
  rw [ht]
  simp only
  rw [if_neg (by simp [hd, hcid])]
  rw [hc]
  simp only
  rw [if_neg (by simp [hl])]

theorem withdrawal_effect (A : Arith) (s : State) (t : Transaction) (c : Client)
    (hk : t.transaction_type = TransactionType.withdrawal)
    (hdup : lookupL t.id s.transfers = none)
    (hc : lookupL t.client_id s.clients = some c)
    (hl : c.locked = false) (hav : ¬(c.available < t.amount)) :
    process_transaction A s t =
      { transfers := insertL t.id t s.transfers,
        clients := insertL t.client_id
          { c with available := A.sub c.available t.amount,
                   total := A.sub c.total t.amount } s.clients } := by
  unfold process_transaction
  rw [hk]
  unfold process_withdrawal
  simp [hdup, hc, hl, hav]

theorem withdrawal_guards_of_not_rejects (s : State) (t : Transaction)
    (hk : t.transaction_type = TransactionType.withdrawal)
    (hrej : rejects s t = false) :
    lookupL t.id s.transfers = none ∧
    ∃ c, lookupL t.client_id s.clients = some c ∧ c.locked = false ∧
      ¬(c.available < t.amount) := by
  rw [rejects, hk] at hrej
  cases hdup : lookupL t.id s.transfers with
  | some tx =>
    rw [hdup] at hrej
    simp at hrej
  | none =>
    rw [hdup] at hrej
    cases hcl : lookupL t.client_id s.clients with
    | none =>
      rw [hcl] at hrej
      simp at hrej
    | some c =>
      rw [hcl] at hrej
      simp at hrej
      exact ⟨rfl, c, rfl, hrej.1, not_lt.mpr hrej.2⟩

theorem set_disputed_false_self (tx : Transaction) (h : tx.disputed = false) :
    ({ tx with disputed := false } : Transaction) = tx := by
  cases tx
  simp_all


theorem stored_flag_step (A : Arith) (s : State) (txid : ℕ) (tx : Transaction)
    (h : lookupL txid s.transfers = some tx) (t : Transaction) :
    ∃ b : Bool, lookupL txid (process_transaction A s t).transfers =
      some { tx with disputed := b } := by
  rcases process_transaction_cases A s t with heq |
    ⟨hk, hdup, cs₀, c, hcs, hl, heq⟩ |
    ⟨hk, hdup, c, hcl, hl, hav, heq⟩ |
    ⟨hk, target, c, hdup, hdisp, htt, hcid, hcl, hl, heq⟩ |
    ⟨hk, target, c, hdup, hdisp, hcid, hcl, hl, heq⟩ |
    ⟨hk, target, c, hdup, hdisp, hcid, hcl, hl, heq⟩
  · exact ⟨tx.disputed, by rw [heq]; exact h⟩
  · have hne : t.id ≠ txid := by
      intro hkk
      rw [hkk, h] at hdup
      cases hdup
    exact ⟨tx.disputed, by rw [heq]; simp only; rw [lookupL_insertL_ne hne]; exact h⟩
  · have hne : t.id ≠ txid := by
      intro hkk
      rw [hkk, h] at hdup
      cases hdup
    exact ⟨tx.disputed, by rw [heq]; simp only; rw [lookupL_insertL_ne hne]; exact h⟩
  · by_cases hkk : t.id = txid
    · have htxeq : target = tx := by
        rw [hkk, h] at hdup
        cases hdup
        rfl
      refine ⟨true, ?_⟩
      rw [heq]
      simp only
      rw [hkk, htxeq, lookupL_insertL_self]
    · exact ⟨tx.disputed, by rw [heq]; simp only; rw [lookupL_insertL_ne hkk]; exact h⟩
  · by_cases hkk : t.id = txid
    · have htxeq : target = tx := by
        rw [hkk, h] at hdup
        cases hdup
        rfl
      refine ⟨false, ?_⟩
      rw [heq]
      simp only
      rw [hkk, htxeq, lookupL_insertL_self]
    · exact ⟨tx.disputed, by rw [heq]; simp only; rw [lookupL_insertL_ne hkk]; exact h⟩
  · exact ⟨tx.disputed, by rw [heq]; exact h⟩

theorem stored_flag_applyAll (A : Arith) (ts : List Transaction) :
    ∀ (s : State) (txid : ℕ) (tx : Transaction),
      lookupL txid s.transfers = some tx →
      ∃ b : Bool, lookupL txid (applyAll A s ts).transfers =
        some { tx with disputed := b } := by
  induction ts with
  | nil => exact fun s txid tx h => ⟨tx.disputed, h⟩
  | cons t ts ih =>
    intro s txid tx h
    obtain ⟨b₁, h₁⟩ := stored_flag_step A s txid tx h t
    obtain ⟨b₂, h₂⟩ := ih (process_transaction A s t) txid { tx with disputed := b₁ } h₁
    exact ⟨b₂, h₂⟩

/-! ### Claim theorems -/

/-- C2: once a client's `locked` flag is true it stays true under any record
sequence (the account record is literally unchanged), no stored transaction
of that client ever changes again (in particular its dispute state), and any
later record carrying that client's id is a complete no-op. -/
theorem c2_locked_is_permanent (s : State) (cid : ℕ) (c : Client)
    (ts : List Transaction)
    (hc : lookupL cid s.clients = some c) (hl : c.locked = true) :
    lookupL cid (applyAll floatArith s ts).clients = some c ∧
    (∀ txid tx, lookupL txid s.transfers = some tx → tx.client_id = cid →
        lookupL txid (applyAll floatArith s ts).transfers = some tx) ∧
    (∀ t : Transaction, t.client_id = cid →
        process_transaction floatArith (applyAll floatArith s ts) t =
          applyAll floatArith s ts) := by
  have hmain := locked_applyAll floatArith s cid c ts hc hl
  exact ⟨hmain.1, hmain.2,
    fun t ht => (locked_step floatArith _ cid c t hmain.1 hl).2.2 ht⟩

/-- Witness for C2: after a further deposit attempt, the locked client 1 of
`sLocked` is unchanged and a deposit record for it is a no-op. -/
theorem c2_locked_is_permanent_witness :
    lookupL 1 (applyAll floatArith sLocked
        [⟨TransactionType.deposit, 1, 9, 3, false⟩]).clients =
      some ⟨1, true, 0, 0, 0⟩ ∧
    process_transaction floatArith
        (applyAll floatArith sLocked [⟨TransactionType.deposit, 1, 9, 3, false⟩])
        ⟨TransactionType.deposit, 1, 9, 3, false⟩ =
      applyAll floatArith sLocked [⟨TransactionType.deposit, 1, 9, 3, false⟩] := by
  have h := c2_locked_is_permanent sLocked 1 ⟨1, true, 0, 0, 0⟩
    [⟨TransactionType.deposit, 1, 9, 3, false⟩] rfl rfl
  exact ⟨h.1, h.2.2 _ rfl⟩

/-- C3: every record that trips a business-rule guard (`rejects`) leaves the
state exactly unchanged — both maps identical, no partial mutation; the
transition function is total by construction. -/
theorem c3_rejected_noop (s : State) (t : Transaction)
    (h : rejects s t = true) : process_transaction floatArith s t = s :=
  rejects_noop floatArith s t h

/-- Witness for C3: an over-large withdrawal against `sDep` is rejected and
leaves the state unchanged. -/
theorem c3_rejected_noop_witness :
    rejects sDep ⟨TransactionType.withdrawal, 1, 9, 5, false⟩ = true ∧
    process_transaction floatArith sDep ⟨TransactionType.withdrawal, 1, 9, 5, false⟩ = sDep :=
  ⟨by with_unfolding_all rfl,
   c3_rejected_noop _ _ (by with_unfolding_all rfl)⟩

/-- C10: in every reachable state, the owner (`client_id`) of every stored
transaction is a key of the clients map, so the `.unwrap()` account lookups
in `process_dispute`, `process_resolve` and `process_chargeback` always
succeed and the engine cannot panic there. -/
theorem c10_owner_lookups_safe (s : State) (h : Reachable floatArith s) :
    OwnersStored s := by
  obtain ⟨ts, rfl⟩ := h
  exact owners_applyAll floatArith ts State.new owners_new

/-- Witness for C10: in the state reached by `wrecs`, the owner of stored
transaction 1 is present in the clients map. -/
theorem c10_owner_lookups_safe_witness :
    (lookupL 1 (applyAll floatArith State.new wrecs).clients).isSome = true :=
  c10_owner_lookups_safe _ ⟨wrecs, rfl⟩ 1
    ⟨TransactionType.deposit, 1, 1, 2, false⟩ (by with_unfolding_all rfl)

/-- C8: a stored transaction id is never overwritten: a later Deposit or
Withdrawal reusing it is a complete no-op, and across any record sequence
the stored record can change only in its `disputed` flag. -/
theorem c8_stored_id_never_overwritten (s : State) (txid : ℕ) (tx : Transaction)
    (h : lookupL txid s.transfers = some tx) :
    (∀ t : Transaction, t.id = txid →
        t.transaction_type = TransactionType.deposit ∨
          t.transaction_type = TransactionType.withdrawal →
        process_transaction floatArith s t = s) ∧
    (∀ ts : List Transaction, ∃ b : Bool,
        lookupL txid (applyAll floatArith s ts).transfers =
          some { tx with disputed := b }) := by
  constructor
  · intro t hid hkind
    have hdup : lookupL t.id s.transfers = some tx := by rw [hid]; exact h
    rcases hkind with hkd | hkd
    · unfold process_transaction
      rw [hkd]
      unfold process_deposit
      simp [hdup]
    · unfold process_transaction
      rw [hkd]
      unfold process_withdrawal
      simp [hdup]
  · exact fun ts => stored_flag_applyAll floatArith ts s txid tx h

/-- Witness for C8: a second deposit reusing stored id 1 against `sDep` is a
no-op. -/
theorem c8_stored_id_never_overwritten_witness :
    process_transaction floatArith sDep ⟨TransactionType.deposit, 2, 1, 5, false⟩ = sDep :=
  (c8_stored_id_never_overwritten sDep 1 dep₁ rfl).1
    ⟨TransactionType.deposit, 2, 1, 5, false⟩ rfl (Or.inl rfl)

/-- C7: a Withdrawal is a no-op exactly when one of the four guards fires
(duplicate stored id, unknown client, locked account, `available < amount`);
otherwise `available` and `total` each decrease by the amount (`f64`
subtraction) and the record is stored under its transaction id. -/
theorem c7_withdrawal_characterisation (s : State) (t : Transaction)
    (hk : t.transaction_type = TransactionType.withdrawal) :
    (process_transaction floatArith s t = s ↔ rejects s t = true) ∧
    (rejects s t = false →
      ∃ c, lookupL t.client_id s.clients = some c ∧
        process_transaction floatArith s t =
          { transfers := insertL t.id t s.transfers,
            clients := insertL t.client_id
              { c with available := fsub c.available t.amount,
                       total := fsub c.total t.amount } s.clients } ∧
        lookupL t.id (process_transaction floatArith s t).transfers = some t) := by
  by_cases hrej : rejects s t = true
  · refine ⟨⟨fun _ => hrej, fun _ => rejects_noop floatArith s t hrej⟩, ?_⟩
    intro hrf
    rw [hrej] at hrf
    cases hrf
  · have hrf : rejects s t = false := by
      revert hrej
      cases rejects s t <;> simp
    obtain ⟨hdup, c, hc, hl, hav⟩ := withdrawal_guards_of_not_rejects s t hk hrf
    have heq := withdrawal_effect floatArith s t c hk hdup hc hl hav
    have hstored : lookupL t.id (process_transaction floatArith s t).transfers = some t := by
      rw [heq]
      simp only
      exact lookupL_insertL_self _ _ _
    refine ⟨⟨fun hs => ?_, fun hh => absurd hh hrej⟩, fun _ => ⟨c, hc, heq, hstored⟩⟩
    rw [hs] at hstored
    rw [hstored] at hdup
    cases hdup

/-- Witness for C7 at a valid withdrawal of 1 against `sDep`. -/
theorem c7_withdrawal_characterisation_witness :
    process_transaction floatArith sDep ⟨TransactionType.withdrawal, 1, 2, 1, false⟩ = sDep ↔
      rejects sDep ⟨TransactionType.withdrawal, 1, 2, 1, false⟩ = true :=
  (c7_withdrawal_characterisation sDep ⟨TransactionType.withdrawal, 1, 2, 1, false⟩ rfl).1

/-- C6: a valid Dispute (stored transaction found, undisputed, of kind
Deposit, matching client id, account not locked) marks the stored transaction
`disputed := true`, adds the amount of the original stored transaction (not
the dispute record's own amount field, which is arbitrary here) to `held` and
subtracts it from `available`, leaving `total` and `locked` unchanged. -/
theorem c6_valid_dispute_effect (s : State) (t target : Transaction) (c : Client)
    (hk : t.transaction_type = TransactionType.dispute)
    (ht : lookupL t.id s.transfers = some target)
    (hd : target.disputed = false)
    (hdep : target.transaction_type = TransactionType.deposit)
    (hcid : target.client_id = t.client_id)
    (hc : lookupL target.client_id s.clients = some c)
    (hl : c.locked = false) :
    process_transaction floatArith s t =
      { transfers := insertL t.id { target with disputed := true } s.transfers,
        clients := insertL target.client_id
          { c with held := fadd c.held target.amount,
                   available := fsub c.available target.amount } s.clients } :=
  dispute_effect floatArith s t target c hk ht hd hdep hcid hc hl

/-- Witness for C6: disputing the stored deposit of `sDep` moves its amount
from `available` to `held`. -/
theorem c6_valid_dispute_effect_witness :
    process_transaction floatArith sDep dispRec =
      { transfers := [(1, dep₁d)], clients := [(1, cl₁d)] } :=
  (c6_valid_dispute_effect sDep dispRec dep₁ cl₁ rfl rfl rfl rfl rfl rfl rfl).trans
    (by with_unfolding_all rfl)

/-- C5: a valid Chargeback (stored transaction found, currently disputed,
matching client id, account not locked) sets `locked := true`, subtracts the
stored transaction's amount from `held` and `total`, and leaves `available`
and the stored-transactions map unchanged. -/
theorem c5_valid_chargeback_effect (s : State) (t target : Transaction) (c : Client)
    (hk : t.transaction_type = TransactionType.chargeback)
    (ht : lookupL t.id s.transfers = some target)
    (hd : target.disputed = true)
    (hcid : target.client_id = t.client_id)
    (hc : lookupL target.client_id s.clients = some c)
    (hl : c.locked = false) :
    process_transaction floatArith s t =
      { transfers := s.transfers,
        clients := insertL target.client_id
          { c with locked := true,
                   held := fsub c.held target.amount,
                   total := fsub c.total target.amount } s.clients } := by
  unfold process_transaction
  rw [hk]
  unfold process_chargeback
  rw [ht]
  simp only
  rw [if_neg (by simp [hd, hcid])]
  rw [hc]
  simp only
  rw [if_neg (by simp [hl])]
  rfl

/-- Witness for C5: charging back the disputed deposit of `sDisp` locks
client 1 and zeroes `held` and `total`, leaving `available` at 0. -/
theorem c5_valid_chargeback_effect_witness :
    process_transaction floatArith sDisp cbRec =
      { transfers := [(1, dep₁d)], clients := [(1, ⟨1, true, 0, 0, 0⟩)] } :=
  (c5_valid_chargeback_effect sDisp cbRec dep₁d cl₁d rfl rfl rfl rfl rfl rfl).trans
    (by with_unfolding_all rfl)

/-- C9: a Dispute whose transaction id is not stored, or whose stored target
belongs to a different client, or is already disputed, or is not a Deposit
(in particular any stored withdrawal), leaves the state unchanged. -/
theorem c9_invalid_dispute_noop (s : State) (t : Transaction)
    (hk : t.transaction_type = TransactionType.dispute)
    (h : lookupL t.id s.transfers = none ∨
      ∃ target, lookupL t.id s.transfers = some target ∧
        (target.client_id ≠ t.client_id ∨ target.disputed = true ∨
         target.transaction_type ≠ TransactionType.deposit)) :
    process_transaction floatArith s t = s := by
  unfold process_transaction
  rw [hk]
  unfold process_dispute
  rcases h with h | ⟨target, ht, hcond⟩
  · rw [h]
  · rw [ht]
    simp only
    rw [if_pos]
    rcases hcond with h₁ | h₂ | h₃
    · exact Or.inr (Or.inr h₁)
    · exact Or.inl h₂
    · exact Or.inr (Or.inl h₃)

/-- Witness for C9: a dispute naming the stored withdrawal `wd₅` is a
no-op. -/
theorem c9_invalid_dispute_noop_witness :
    process_transaction floatArith sWd ⟨TransactionType.dispute, 1, 5, 0, false⟩ = sWd :=
  c9_invalid_dispute_noop sWd ⟨TransactionType.dispute, 1, 5, 0, false⟩ rfl
    (Or.inr ⟨wd₅, rfl, Or.inr (Or.inr (by decide))⟩)

/-- C1 counterexample: the state reached by `c1recs` (deposit 2; dispute it;
deposit `2^53`; deposit 1 — all records parseable `f64` inputs) has client 1
with `available = 2^53`, `held = 2`, `total = 2^53 + 4`, and `2^53 + 4`
differs from `available + held` both as the `f64` sum (`fadd`) and as the
exact sum: the last deposit rounds `total` upward but leaves `available`
unchanged. -/
theorem c1_float_balance_counterexample :
    Reachable floatArith (applyAll floatArith State.new c1recs) ∧
    lookupL 1 (applyAll floatArith State.new c1recs).clients =
      some ⟨1, false, 9007199254740992, 2, 9007199254740996⟩ ∧
    (9007199254740996 : ℚ) ≠ fadd 9007199254740992 2 ∧
    (9007199254740996 : ℚ) ≠ 9007199254740992 + 2 := by
  refine ⟨⟨c1recs, rfl⟩, by with_unfolding_all rfl, ?_, ?_⟩
  · with_unfolding_all decide
  · with_unfolding_all decide

/-- C1 (amended): under exact rational arithmetic the invariant
`total = available + held` holds for every client in every reachable state;
and under the code's `f64` arithmetic it still holds (with `held = 0`) after
every step of a deposit-only sequence, because `available` and `total` then
receive identical rounded updates. In full `f64` arithmetic the invariant
can fail once `held ≠ 0` (see the counterexample). -/
theorem c1_balance_invariant_amended :
    (∀ s : State, Reachable exactArith s → BalancedOK s) ∧
    (∀ ts : List Transaction,
      (∀ t ∈ ts, t.transaction_type = TransactionType.deposit) →
      ∀ k c, lookupL k (applyAll floatArith State.new ts).clients = some c →
        c.held = 0 ∧ c.total = c.available + c.held) := by
  constructor
  · rintro s ⟨ts, rfl⟩
    exact balanced_applyAll ts State.new balanced_new
  · intro ts hts k c hkc
    have h := heldzero_applyAll floatArith ts State.new hts heldzero_new k c hkc
    exact ⟨h.1, by rw [h.2, h.1, add_zero]⟩

/-- Witness for C1 (amended), applied to the two-deposit sequence `wrecs`:
client 1 ends with `available = 3`, `held = 0`, `total = 3` and the balance
equation holds in both readings. -/
theorem c1_balance_invariant_amended_witness :
    ((3 : ℚ) = 3 + 0) ∧ ((0 : ℚ) = 0 ∧ (3 : ℚ) = 3 + 0) := by
  constructor
  · exact c1_balance_invariant_amended.1 _ ⟨wrecs, rfl⟩ 1 ⟨1, false, 3, 0, 3⟩
      (by with_unfolding_all rfl)
  · exact c1_balance_invariant_amended.2 wrecs (by decide) 1 ⟨1, false, 3, 0, 3⟩
      (by with_unfolding_all rfl)

/-- C4 counterexample: in the reachable state after `c4recs` (deposits of 1,
`2^53`, 2 by client 1), transaction 1 is a stored undisputed deposit and
client 1 has `available = total = 2^53 + 2`; a valid Dispute of it followed
by a valid Resolve leaves `available = 2^53 ≠ 2^53 + 2` — the round trip
does not restore the pre-dispute `f64` values (subtracting and re-adding 1
at this magnitude loses the low bits; the flag does end `disputed = false`,
the final `transfers` map is unchanged). -/
theorem c4_float_roundtrip_counterexample :
    Reachable floatArith (applyAll floatArith State.new c4recs) ∧
    lookupL 1 (applyAll floatArith State.new c4recs).transfers =
      some ⟨TransactionType.deposit, 1, 1, 1, false⟩ ∧
    lookupL 1 (applyAll floatArith State.new c4recs).clients =
      some ⟨1, false, 9007199254740994, 0, 9007199254740994⟩ ∧
    lookupL 1 (applyAll floatArith (applyAll floatArith State.new c4recs)
        [dispRec, resRec]).clients =
      some ⟨1, false, 9007199254740992, 0, 9007199254740994⟩ ∧
    (9007199254740992 : ℚ) ≠ 9007199254740994 := by
  refine ⟨⟨c4recs, rfl⟩, by with_unfolding_all rfl, by with_unfolding_all rfl,
    by with_unfolding_all rfl, by with_unfolding_all decide⟩

/-- C4 (amended): for any state holding an undisputed stored deposit owned
by an unlocked client, a valid Dispute followed by a valid Resolve of the
same transaction id is the identity on the whole state under exact rational
arithmetic; under the code's `f64` arithmetic the balances may drift (see
the counterexample) but the stored transaction is restored exactly, ending
`disputed = false`. -/
theorem c4_dispute_resolve_roundtrip_amended (s : State) (txid cid : ℕ)
    (tx : Transaction) (c : Client) (dr rr : Transaction)
    (ht : lookupL txid s.transfers = some tx) (hd : tx.disputed = false)
    (htk : tx.transaction_type = TransactionType.deposit) (hto : tx.client_id = cid)
    (hc : lookupL cid s.clients = some c) (hl : c.locked = false)
    (hdr : dr.transaction_type = TransactionType.dispute)
    (hdri : dr.id = txid) (hdrc : dr.client_id = cid)
    (hrr : rr.transaction_type = TransactionType.resolve)
    (hrri : rr.id = txid) (hrrc : rr.client_id = cid) :
    process_transaction exactArith (process_transaction exactArith s dr) rr = s ∧
    lookupL txid (process_transaction floatArith
        (process_transaction floatArith s dr) rr).transfers = some tx := by
  have hto' : tx.client_id = dr.client_id := by rw [hto, hdrc]
  have hcd : lookupL tx.client_id s.clients = some c := by rw [hto]; exact hc
  have htd : lookupL dr.id s.transfers = some tx := by rw [hdri]; exact ht
  constructor
  · -- exact arithmetic: the round trip is the identity
    have h₁ := dispute_effect exactArith s dr tx c hdr htd hd htk hto' hcd hl
    rw [h₁]
    have h₂ := resolve_effect exactArith
      { transfers := insertL dr.id { tx with disputed := true } s.transfers,
        clients := insertL tx.client_id
          { c with held := exactArith.add c.held tx.amount,
                   available := exactArith.sub c.available tx.amount } s.clients }
      rr { tx with disputed := true }
      { c with held := exactArith.add c.held tx.amount,
               available := exactArith.sub c.available tx.amount }
      hrr (by simp only; rw [hrri, hdri, lookupL_insertL_self]) rfl
      (by simp only; rw [hto, hrrc])
      (by simp only; rw [lookupL_insertL_self]) hl
    rw [h₂]
    simp only
    rw [hrri, hdri, insertL_insertL, insertL_insertL]
    have htx₂ : ({ tx with disputed := false } : Transaction) = tx :=
      set_disputed_false_self tx hd
    have hcl₂ : ({ c with
        held := exactArith.sub (exactArith.add c.held tx.amount) tx.amount,
        available := exactArith.add (exactArith.sub c.available tx.amount) tx.amount } :
          Client) = c := by
      cases c
      simp [exactArith]
    rw [htx₂, hcl₂, insertL_lookup_eq ht, insertL_lookup_eq hcd]
  · -- `f64` arithmetic: the stored transaction is restored exactly
    have h₁ := dispute_effect floatArith s dr tx c hdr htd hd htk hto' hcd hl
    rw [h₁]
    have h₂ := resolve_effect floatArith
      { transfers := insertL dr.id { tx with disputed := true } s.transfers,
        clients := insertL tx.client_id
          { c with held := floatArith.add c.held tx.amount,
                   available := floatArith.sub c.available tx.amount } s.clients }
      rr { tx with disputed := true }
      { c with held := floatArith.add c.held tx.amount,
               available := floatArith.sub c.available tx.amount }
      hrr (by simp only; rw [hrri, hdri, lookupL_insertL_self]) rfl
      (by simp only; rw [hto, hrrc])
      (by simp only; rw [lookupL_insertL_self]) hl
    rw [h₂]
    simp only
    rw [hrri, hdri, insertL_insertL]
    rw [set_disputed_false_self tx hd, lookupL_insertL_self]

/-- Witness for C4 (amended): against `sDep`, dispute then resolve of
transaction 1 is the identity under exact arithmetic, and the stored record
is restored under `f64` arithmetic. -/
theorem c4_dispute_resolve_roundtrip_amended_witness :
    process_transaction exactArith (process_transaction exactArith sDep dispRec) resRec = sDep ∧
    lookupL 1 (process_transaction floatArith
        (process_transaction floatArith sDep dispRec) resRec).transfers = some dep₁ :=
  c4_dispute_resolve_roundtrip_amended sDep 1 1 dep₁ cl₁ dispRec resRec
    rfl rfl rfl rfl rfl rfl rfl rfl rfl rfl rfl rfl
